import Mathlib

/-!
Shallow embedding of the free/busy time-slot computation of the
google-calender-Go-MCP repository (`src/calendar/service.go`), together with
the availability entry point that wraps it.

Modelling choices:
* Go `time.Time` instants are embedded as `Int`; `t1.Before(t2)` is `t1 < t2`
  and `t1.After(t2)` is `t2 < t1` (both are strict in Go).
* a Google calendar event contributes only its parsed `Start.DateTime` and
  `End.DateTime` instants to `calculateFreeTimeSlots`, so it is embedded as a
  pair of instants; the RFC3339 parsing step belongs to the surrounding glue.
* Go `sort.Slice(events, less)` with `less i j := iStart.Before(jStart)` runs
  a stable insertion sort for slices shorter than 12 elements; it is embedded
  as the stable `List.insertionSort` under the reflexive comparison on
  `start`, which coincides with a stable sort under the strict comparison.
  Concrete inputs used below all have fewer than 12 events, where the two
  agree element for element with the Go runtime.
* the `events` slice of `CheckAvailability` is fetched from the Google API;
  the fetch is abstracted as a parameter (the happy path of the retrieval),
  so only the validation and computation logic is modelled.
-/

/-- A calendar event as consumed by `calculateFreeTimeSlots`: the parsed
`Start.DateTime` and `End.DateTime` instants.  The field `stop` embeds the Go
field `End` (`end` is a Lean keyword). -/
structure Event where
  start : Int
  stop : Int
deriving Repr, DecidableEq

/-- The `TimeSlot` struct returned by the availability computation: an
interval tagged with a `Free` flag.  The field `stop` embeds the Go field
`End`. -/
structure TimeSlot where
  start : Int
  stop : Int
  free : Bool
deriving Repr, DecidableEq

/-- The comparison under which the events are ordered: Go sorts with the
strict `iStart.Before(jStart)`; the stable model uses its reflexive
closure on `start`. -/
def eventLE (a b : Event) : Prop := a.start ≤ b.start

instance : DecidableRel eventLE := fun a b => inferInstanceAs (Decidable (a.start ≤ b.start))

instance : IsTotal Event eventLE := ⟨fun a b => Int.le_total a.start b.start⟩

instance : IsTrans Event eventLE := ⟨fun _ _ _ h1 h2 => le_trans h1 h2⟩

/-- The strict start-time order, used to show the sorted order is unique when
all start times are distinct. -/
def eventLT (a b : Event) : Prop := a.start < b.start

instance : IsAntisymm Event eventLT :=
  ⟨fun _ _ h1 h2 => absurd (lt_trans h1 h2) (lt_irrefl _)⟩

/-- The `sort.Slice` call of `calculateFreeTimeSlots` (`service.go` lines
277-281): sort the events by start time. -/
def sortEvents (events : List Event) : List Event := List.insertionSort eventLE events

/-- One iteration of the event loop of `calculateFreeTimeSlots`
(`service.go` lines 285-322).  The accumulator carries the `timeSlots` slice
built so far and the `currentTime` cursor. -/
def sweepStep (startTime endTime : Int) (acc : List TimeSlot × Int) (event : Event) :
    List TimeSlot × Int :=
  if event.stop < startTime ∨ endTime < event.start then acc
  else
    let eventStart := if event.start < startTime then startTime else event.start
    let eventStop := if endTime < event.stop then endTime else event.stop
    let slots1 := if acc.2 < eventStart then acc.1 ++ [⟨acc.2, eventStart, true⟩] else acc.1
    let slots2 := slots1 ++ [⟨eventStart, eventStop, false⟩]
    let cur2 := if acc.2 < eventStop then eventStop else acc.2
    (slots2, cur2)

/-- Embedding of `calculateFreeTimeSlots` (`service.go` lines 264-334): if
there are no events the whole range is returned as one free slot; otherwise
the events are sorted by start time, swept left to right from
`currentTime := startTime`, and a final free slot is appended when the cursor
ends strictly before `endTime`. -/
def calculateFreeTimeSlots (startTime endTime : Int) (events : List Event) : List TimeSlot :=
  if events.isEmpty then [⟨startTime, endTime, true⟩]
  else
    let acc := (sortEvents events).foldl (sweepStep startTime endTime) ([], startTime)
    if acc.2 < endTime then acc.1 ++ [⟨acc.2, endTime, true⟩] else acc.1

/-- The clamp `if eventStart.Before(startTime) { eventStart = startTime }`
(`service.go` line 295). -/
def clipStart (s : Int) (ev : Event) : Int := if ev.start < s then s else ev.start

/-- The clamp `if eventEnd.After(endTime) { eventEnd = endTime }`
(`service.go` line 298). -/
def clipStop (e : Int) (ev : Event) : Int := if e < ev.stop then e else ev.stop

/-- The cursor update `if eventEnd.After(currentTime) { currentTime = eventEnd }`
(`service.go` line 319). -/
def bump (cur x : Int) : Int := if cur < x then x else cur

/-- Recursive presentation of the sweep loop of `calculateFreeTimeSlots`
together with the trailing free-slot emission; proved equal to the `foldl`
form in `sweep_eq_foldl` and used as the vehicle for the inductive proofs. -/
def sweep (s e : Int) : Int → List Event → List TimeSlot
  | cur, [] => if cur < e then [⟨cur, e, true⟩] else []
  | cur, ev :: rest =>
    if ev.stop < s ∨ e < ev.start then sweep s e cur rest
    else
      (if cur < clipStart s ev then [⟨cur, clipStart s ev, true⟩] else []) ++
        ⟨clipStart s ev, clipStop e ev, false⟩ :: sweep s e (bump cur (clipStop e ev)) rest

/-- The error kinds of `errors.go` that the availability entry point can
produce from its own validation (`ErrCodeInvalidTimeRange`) or from the
remote fetch (`ErrCodeServiceUnavailable`). -/
inductive CalendarError where
  | invalidTimeRange
  | serviceUnavailable
deriving Repr, DecidableEq

/-- Embedding of `CheckAvailability` (`service.go` lines 51-76): reject a
window whose start is strictly after its end with `INVALID_TIME_RANGE`,
otherwise compute the slots over the fetched events. -/
def CheckAvailability (startTime endTime : Int) (events : List Event) :
    Except CalendarError (List TimeSlot) :=
  if endTime < startTime then Except.error CalendarError.invalidTimeRange
  else Except.ok (calculateFreeTimeSlots startTime endTime events)

/-! Basic bridging lemmas between the `foldl` form and the recursive form. -/

theorem sweepStep_acc (s e : Int) (acc : List TimeSlot × Int) (ev : Event) :
    sweepStep s e acc ev =
      (acc.1 ++ (sweepStep s e ([], acc.2) ev).1, (sweepStep s e ([], acc.2) ev).2) := by
  simp only [sweepStep]
  split
  · simp
  · split <;> (split <;> simp)

theorem foldl_sweepStep_acc (s e : Int) :
    ∀ (l : List Event) (acc : List TimeSlot × Int),
      l.foldl (sweepStep s e) acc =
        (acc.1 ++ (l.foldl (sweepStep s e) ([], acc.2)).1,
          (l.foldl (sweepStep s e) ([], acc.2)).2) := by
  intro l
  induction l with
  | nil => simp
  | cons ev rest ih =>
    intro acc
    rw [List.foldl_cons, List.foldl_cons, ih (sweepStep s e acc ev),
      ih (sweepStep s e ([], acc.2) ev), sweepStep_acc s e acc ev]
    simp [List.append_assoc]

theorem sweep_eq_foldl (s e : Int) :
    ∀ (l : List Event) (cur : Int),
      sweep s e cur l =
        (if (l.foldl (sweepStep s e) ([], cur)).2 < e
          then (l.foldl (sweepStep s e) ([], cur)).1 ++
            [⟨(l.foldl (sweepStep s e) ([], cur)).2, e, true⟩]
          else (l.foldl (sweepStep s e) ([], cur)).1) := by
  intro l
  induction l with
  | nil => intro cur; simp [sweep]
  | cons ev rest ih =>
    intro cur
    rw [List.foldl_cons]
    by_cases hskip : ev.stop < s ∨ e < ev.start
    · have hstep : sweepStep s e ([], cur) ev = ([], cur) := by
        simp [sweepStep, hskip]
      rw [hstep]
      simp only [sweep, hskip, if_pos]
      exact ih cur
    · have hstep : sweepStep s e ([], cur) ev =
          ((if cur < clipStart s ev then [⟨cur, clipStart s ev, true⟩] else []) ++
            [⟨clipStart s ev, clipStop e ev, false⟩], bump cur (clipStop e ev)) := by
        simp only [sweepStep, hskip, if_neg, not_false_iff, clipStart, clipStop, bump]
        split <;> simp
      rw [hstep, foldl_sweepStep_acc s e rest]
      simp only [sweep, hskip, if_neg, not_false_iff]
      rw [ih (bump cur (clipStop e ev))]
      split <;> (split <;> simp [List.append_assoc])

theorem calculateFreeTimeSlots_eq_sweep (s e : Int) (events : List Event) (h : events ≠ []) :
    calculateFreeTimeSlots s e events = sweep s e s (sortEvents events) := by
  rw [calculateFreeTimeSlots, if_neg (by simpa using h), sweep_eq_foldl]

theorem calculateFreeTimeSlots_nil (s e : Int) :
    calculateFreeTimeSlots s e [] = [⟨s, e, true⟩] := by
  simp [calculateFreeTimeSlots]

/-! Arithmetic facts about the clamped bounds and the cursor update. -/

theorem le_clipStart (s : Int) (ev : Event) : s ≤ clipStart s ev := by
  unfold clipStart; split <;> omega

theorem start_le_clipStart (s : Int) (ev : Event) : ev.start ≤ clipStart s ev := by
  unfold clipStart; split <;> omega

theorem clipStart_le (s e : Int) (ev : Event) (h1 : ev.start ≤ e) (h2 : s ≤ e) :
    clipStart s ev ≤ e := by
  unfold clipStart; split <;> omega

theorem clipStart_mono (s : Int) (a b : Event) (h : a.start ≤ b.start) :
    clipStart s a ≤ clipStart s b := by
  unfold clipStart; split <;> split <;> omega

theorem clipStop_le (e : Int) (ev : Event) : clipStop e ev ≤ e := by
  unfold clipStop; split <;> omega

theorem le_clipStop (s e : Int) (ev : Event) (h1 : s ≤ ev.stop) (h2 : s ≤ e) :
    s ≤ clipStop e ev := by
  unfold clipStop; split <;> omega

theorem clipStart_le_clipStop (s e : Int) (ev : Event) (hwf : ev.start ≤ ev.stop)
    (h1 : ev.start ≤ e) (h2 : s ≤ ev.stop) (h3 : s ≤ e) :
    clipStart s ev ≤ clipStop e ev := by
  unfold clipStart clipStop; split <;> split <;> omega

theorem le_bump_left (cur x : Int) : cur ≤ bump cur x := by
  unfold bump; split <;> omega

theorem le_bump_right (cur x : Int) : x ≤ bump cur x := by
  unfold bump; split <;> omega

theorem bump_le (cur x e : Int) (h1 : cur ≤ e) (h2 : x ≤ e) : bump cur x ≤ e := by
  unfold bump; split <;> omega

/-! Inductive properties of the sweep. -/

/-- An event strictly outside the window is skipped by the sweep and
contributes nothing (`service.go` lines 290-292). -/
theorem sweep_skip (s e cur : Int) (ev : Event) (l : List Event)
    (h : ev.stop < s ∨ e < ev.start) : sweep s e cur (ev :: l) = sweep s e cur l := by
  simp [sweep, h]

/-- Every free slot the sweep emits has start strictly before stop, because
both free emissions are guarded by a strict comparison. -/
theorem sweep_free_strict (s e : Int) :
    ∀ (l : List Event) (cur : Int), ∀ slot ∈ sweep s e cur l,
      slot.free = true → slot.start < slot.stop := by
  intro l
  induction l with
  | nil =>
    intro cur slot hmem
    simp only [sweep] at hmem
    by_cases hcur : cur < e
    · rw [if_pos hcur] at hmem
      rcases List.mem_singleton.mp hmem with rfl
      intro _
      exact hcur
    · rw [if_neg hcur] at hmem
      exact absurd hmem (List.not_mem_nil slot)
  | cons ev rest ih =>
    intro cur slot hmem
    simp only [sweep] at hmem
    by_cases hskip : ev.stop < s ∨ e < ev.start
    · rw [if_pos hskip] at hmem
      exact ih cur slot hmem
    · rw [if_neg hskip] at hmem
      rcases List.mem_append.mp hmem with hm | hm
      · by_cases hfree : cur < clipStart s ev
        · rw [if_pos hfree] at hm
          rcases List.mem_singleton.mp hm with rfl
          intro _
          exact hfree
        · rw [if_neg hfree] at hm
          exact absurd hm (List.not_mem_nil slot)
      · rcases List.mem_cons.mp hm with rfl | hm2
        · intro hfree
          simp at hfree
        · exact ih (bump cur (clipStop e ev)) slot hm2

/-- No two adjacent emitted slots are both free: every free slot emitted
inside the loop is immediately followed by the busy slot of its event, and
the trailing free slot is last. -/
theorem sweep_chain_free (s e : Int) :
    ∀ (l : List Event) (cur : Int),
      List.Chain' (fun a b : TimeSlot => a.free = false ∨ b.free = false) (sweep s e cur l) := by
  intro l
  induction l with
  | nil =>
    intro cur
    simp only [sweep]
    split <;> simp
  | cons ev rest ih =>
    intro cur
    simp only [sweep]
    split
    · exact ih cur
    · have hchain : List.Chain' (fun a b : TimeSlot => a.free = false ∨ b.free = false)
          (⟨clipStart s ev, clipStop e ev, false⟩ :: sweep s e (bump cur (clipStop e ev)) rest) := by
        refine List.chain'_cons'.mpr ⟨?_, ih _⟩
        intro y _
        left
        rfl
      split
      · simp only [List.singleton_append]
        refine List.chain'_cons'.mpr ⟨?_, hchain⟩
        intro y hy
        simp only [List.head?_cons, Option.mem_def, Option.some.injEq] at hy
        right
        rw [← hy]
      · simpa using hchain

/-- With a degenerate window (`start == end == s`) every slot the sweep emits
is the zero-length interval at `s`. -/
theorem sweep_deg (s : Int) :
    ∀ (l : List Event), ∀ slot ∈ sweep s s s l, slot.start = s ∧ slot.stop = s := by
  intro l
  induction l with
  | nil =>
    intro slot hmem
    simp [sweep] at hmem
  | cons ev rest ih =>
    intro slot hmem
    simp only [sweep] at hmem
    by_cases hskip : ev.stop < s ∨ s < ev.start
    · rw [if_pos hskip] at hmem
      exact ih slot hmem
    · rw [if_neg hskip] at hmem
      push_neg at hskip
      obtain ⟨hk1, hk2⟩ := hskip
      have hA : clipStart s ev = s := by unfold clipStart; split <;> omega
      have hB : clipStop s ev = s := by unfold clipStop; split <;> omega
      have hC : bump s s = s := by unfold bump; split <;> omega
      rw [hA, hB, hC, if_neg (lt_irrefl s)] at hmem
      rcases List.mem_cons.mp (by simpa using hmem) with rfl | hm2
      · exact ⟨rfl, rfl⟩
      · exact ih slot hm2

/-- Lower bound on the start of every emitted slot, given a bound below the
cursor and below every clamped event start. -/
theorem sweep_start_lb (s e : Int) :
    ∀ (l : List Event) (cur b : Int), b ≤ cur →
      (∀ ev ∈ l, b ≤ clipStart s ev) →
      ∀ slot ∈ sweep s e cur l, b ≤ slot.start := by
  intro l
  induction l with
  | nil =>
    intro cur b hb _ slot hmem
    simp only [sweep] at hmem
    by_cases hcur : cur < e
    · rw [if_pos hcur] at hmem
      rcases List.mem_singleton.mp hmem with rfl
      exact hb
    · rw [if_neg hcur] at hmem
      exact absurd hmem (List.not_mem_nil slot)
  | cons ev rest ih =>
    intro cur b hb hev slot hmem
    simp only [sweep] at hmem
    by_cases hskip : ev.stop < s ∨ e < ev.start
    · rw [if_pos hskip] at hmem
      exact ih cur b hb (fun x hx => hev x (List.mem_cons_of_mem ev hx)) slot hmem
    · rw [if_neg hskip] at hmem
      rcases List.mem_append.mp hmem with hm | hm
      · by_cases hfree : cur < clipStart s ev
        · rw [if_pos hfree] at hm
          rcases List.mem_singleton.mp hm with rfl
          exact hb
        · rw [if_neg hfree] at hm
          exact absurd hm (List.not_mem_nil slot)
      · rcases List.mem_cons.mp hm with rfl | hm2
        · exact hev ev (List.mem_cons_self ev rest)
        · exact ih (bump cur (clipStop e ev)) b
            (le_trans hb (le_bump_left cur _))
            (fun x hx => hev x (List.mem_cons_of_mem ev hx)) slot hm2

/-- The emitted slots have nondecreasing start times, provided the window is
well ordered, the events are well formed and processed in sorted order. -/
theorem sweep_pairwise_start (s e : Int) (hse : s ≤ e) :
    ∀ (l : List Event) (cur : Int), s ≤ cur →
      List.Pairwise eventLE l → (∀ ev ∈ l, ev.start ≤ ev.stop) →
      List.Pairwise (fun a b : TimeSlot => a.start ≤ b.start) (sweep s e cur l) := by
  intro l
  induction l with
  | nil =>
    intro cur _ _ _
    simp only [sweep]
    split <;> simp
  | cons ev rest ih =>
    intro cur hcur hsort hwf
    have hhead : ∀ x ∈ rest, eventLE ev x := (List.pairwise_cons.mp hsort).1
    have hsort_rest : List.Pairwise eventLE rest := (List.pairwise_cons.mp hsort).2
    have hwf_rest : ∀ x ∈ rest, x.start ≤ x.stop :=
      fun x hx => hwf x (List.mem_cons_of_mem ev hx)
    simp only [sweep]
    by_cases hskip : ev.stop < s ∨ e < ev.start
    · rw [if_pos hskip]
      exact ih cur hcur hsort_rest hwf_rest
    · rw [if_neg hskip]
      push_neg at hskip
      obtain ⟨hk1, hk2⟩ := hskip
      have hwf_ev : ev.start ≤ ev.stop := hwf ev (List.mem_cons_self ev rest)
      have hAB : clipStart s ev ≤ clipStop e ev :=
        clipStart_le_clipStop s e ev hwf_ev hk2 hk1 hse
      have hBC : clipStop e ev ≤ bump cur (clipStop e ev) := le_bump_right cur _
      have hsC : s ≤ bump cur (clipStop e ev) := le_trans hcur (le_bump_left cur _)
      have hS : List.Pairwise (fun a b : TimeSlot => a.start ≤ b.start)
          (sweep s e (bump cur (clipStop e ev)) rest) :=
        ih (bump cur (clipStop e ev)) hsC hsort_rest hwf_rest
      have hlbA : ∀ slot ∈ sweep s e (bump cur (clipStop e ev)) rest,
          clipStart s ev ≤ slot.start := by
        refine sweep_start_lb s e rest (bump cur (clipStop e ev)) (clipStart s ev)
          (le_trans hAB hBC) ?_
        intro x hx
        exact clipStart_mono s ev x (hhead x hx)
      have hbusy : List.Pairwise (fun a b : TimeSlot => a.start ≤ b.start)
          (⟨clipStart s ev, clipStop e ev, false⟩ ::
            sweep s e (bump cur (clipStop e ev)) rest) :=
        List.pairwise_cons.mpr ⟨fun slot hs => hlbA slot hs, hS⟩
      by_cases hfree : cur < clipStart s ev
      · rw [if_pos hfree]
        simp only [List.singleton_append]
        refine List.pairwise_cons.mpr ⟨?_, hbusy⟩
        intro slot hs
        rcases List.mem_cons.mp hs with rfl | hm
        · exact le_of_lt hfree
        · exact le_trans (le_of_lt hfree) (hlbA slot hm)
      · rw [if_neg hfree]
        simpa using hbusy

/-- Every emitted slot stays inside the window bounds, provided the window is
well ordered and the cursor starts inside it. -/
theorem sweep_in_window (s e : Int) (hse : s ≤ e) :
    ∀ (l : List Event) (cur : Int), s ≤ cur → cur ≤ e →
      ∀ slot ∈ sweep s e cur l, s ≤ slot.start ∧ slot.stop ≤ e := by
  intro l
  induction l with
  | nil =>
    intro cur h1 h2 slot hmem
    simp only [sweep] at hmem
    by_cases hcur : cur < e
    · rw [if_pos hcur] at hmem
      rcases List.mem_singleton.mp hmem with rfl
      exact ⟨h1, le_refl e⟩
    · rw [if_neg hcur] at hmem
      exact absurd hmem (List.not_mem_nil slot)
  | cons ev rest ih =>
    intro cur h1 h2 slot hmem
    simp only [sweep] at hmem
    by_cases hskip : ev.stop < s ∨ e < ev.start
    · rw [if_pos hskip] at hmem
      exact ih cur h1 h2 slot hmem
    · rw [if_neg hskip] at hmem
      push_neg at hskip
      obtain ⟨hk1, hk2⟩ := hskip
      have hC1 : s ≤ bump cur (clipStop e ev) := le_trans h1 (le_bump_left cur _)
      have hC2 : bump cur (clipStop e ev) ≤ e := bump_le cur _ e h2 (clipStop_le e ev)
      rcases List.mem_append.mp hmem with hm | hm
      · by_cases hfree : cur < clipStart s ev
        · rw [if_pos hfree] at hm
          rcases List.mem_singleton.mp hm with rfl
          exact ⟨h1, clipStart_le s e ev hk2 hse⟩
        · rw [if_neg hfree] at hm
          exact absurd hm (List.not_mem_nil slot)
      · rcases List.mem_cons.mp hm with rfl | hm2
        · exact ⟨le_clipStart s ev, clipStop_le e ev⟩
        · exact ih (bump cur (clipStop e ev)) hC1 hC2 slot hm2

/-- Coverage: every point between the cursor and the window end lies in some
emitted slot, for arbitrary (even malformed) events. -/
theorem sweep_covers (s e : Int) :
    ∀ (l : List Event) (cur t : Int), cur ≤ t → t < e →
      ∃ slot ∈ sweep s e cur l, slot.start ≤ t ∧ t < slot.stop := by
  intro l
  induction l with
  | nil =>
    intro cur t h1 h2
    refine ⟨⟨cur, e, true⟩, ?_, h1, h2⟩
    simp only [sweep]
    rw [if_pos (lt_of_le_of_lt h1 h2)]
    exact List.mem_singleton.mpr rfl
  | cons ev rest ih =>
    intro cur t h1 h2
    simp only [sweep]
    by_cases hskip : ev.stop < s ∨ e < ev.start
    · rw [if_pos hskip]
      exact ih cur t h1 h2
    · rw [if_neg hskip]
      by_cases hC : bump cur (clipStop e ev) ≤ t
      · obtain ⟨slot, hmem, hcov⟩ := ih (bump cur (clipStop e ev)) t hC h2
        exact ⟨slot, List.mem_append.mpr (Or.inr (List.mem_cons_of_mem _ hmem)), hcov⟩
      · push_neg at hC
        have htB : t < clipStop e ev := by
          unfold bump at hC
          split at hC <;> omega
        by_cases hA : t < clipStart s ev
        · have hfree : cur < clipStart s ev := lt_of_le_of_lt h1 hA
          refine ⟨⟨cur, clipStart s ev, true⟩, ?_, h1, hA⟩
          rw [if_pos hfree]
          exact List.mem_append.mpr (Or.inl (List.mem_singleton.mpr rfl))
        · push_neg at hA
          exact ⟨⟨clipStart s ev, clipStop e ev, false⟩,
            List.mem_append.mpr (Or.inr (List.mem_cons_self _ _)), hA, htB⟩

/-- The sweep emits exactly one busy slot per event that intersects the
window, duplicates and overlaps included. -/
theorem sweep_busy_count (s e : Int) :
    ∀ (l : List Event) (cur : Int),
      (sweep s e cur l).countP (fun slot => slot.free == false) =
        l.countP (fun ev => decide (¬(ev.stop < s ∨ e < ev.start))) := by
  intro l
  induction l with
  | nil =>
    intro cur
    simp only [sweep]
    split <;> simp
  | cons ev rest ih =>
    intro cur
    simp only [sweep]
    by_cases hskip : ev.stop < s ∨ e < ev.start
    · have hq : (decide ¬(ev.stop < s ∨ e < ev.start)) = false :=
        decide_eq_false (not_not_intro hskip)
      rw [if_pos hskip, List.countP_cons, hq, if_neg (by decide), Nat.add_zero]
      exact ih cur
    · have hq : (decide ¬(ev.stop < s ∨ e < ev.start)) = true := decide_eq_true hskip
      have hfree : ∀ (x : Int),
          (if cur < x then [(⟨cur, x, true⟩ : TimeSlot)] else []).countP
            (fun slot => slot.free == false) = 0 := by
        intro x
        split <;> simp
      rw [if_neg hskip, List.countP_append, hfree, List.countP_cons, List.countP_cons,
        ih (bump cur (clipStop e ev)), hq]
      simp

/-! Properties of the sort step. -/

theorem sortEvents_sorted (l : List Event) : List.Sorted eventLE (sortEvents l) :=
  List.sorted_insertionSort eventLE l

theorem sortEvents_perm (l : List Event) : (sortEvents l).Perm l :=
  List.perm_insertionSort eventLE l

/-- When no two events share a start time, the sorted order is unique, so any
two permutations of the input sort to the same list. -/
theorem sortEvents_eq_of_perm (l1 l2 : List Event) (hp : l1.Perm l2)
    (hn : (l1.map Event.start).Nodup) : sortEvents l1 = sortEvents l2 := by
  have hn1 : ((sortEvents l1).map Event.start).Nodup :=
    (((sortEvents_perm l1).map Event.start).nodup_iff).mpr hn
  have hn2 : ((sortEvents l2).map Event.start).Nodup :=
    (((sortEvents_perm l2).map Event.start).nodup_iff).mpr
      (((hp.map Event.start).nodup_iff).mp hn)
  have hlt1 : List.Sorted eventLT (sortEvents l1) := by
    have hne : List.Pairwise (fun a b : Event => a.start ≠ b.start) (sortEvents l1) :=
      List.pairwise_map.mp hn1
    exact ((sortEvents_sorted l1).and hne).imp (fun h => lt_of_le_of_ne h.1 h.2)
  have hlt2 : List.Sorted eventLT (sortEvents l2) := by
    have hne : List.Pairwise (fun a b : Event => a.start ≠ b.start) (sortEvents l2) :=
      List.pairwise_map.mp hn2
    exact ((sortEvents_sorted l2).and hne).imp (fun h => lt_of_le_of_ne h.1 h.2)
  exact List.eq_of_perm_of_sorted
    ((sortEvents_perm l1).trans (hp.trans (sortEvents_perm l2).symm)) hlt1 hlt2

/-- Busy-slot count at the level of `calculateFreeTimeSlots`: one busy slot
per window-intersecting input event. -/
theorem calc_busy_count (s e : Int) (busy : List Event) :
    (calculateFreeTimeSlots s e busy).countP (fun slot => slot.free == false) =
      busy.countP (fun ev => decide (¬(ev.stop < s ∨ e < ev.start))) := by
  rcases eq_or_ne busy [] with rfl | h
  · simp [calculateFreeTimeSlots_nil]
  · rw [calculateFreeTimeSlots_eq_sweep s e busy h, sweep_busy_count]
    exact (sortEvents_perm busy).countP_eq _

/-! Claim theorems.  Timestamps in concrete inputs are minutes from midnight:
540 = 09:00, 600 = 10:00, 660 = 11:00, 690 = 11:30, 720 = 12:00,
1020 = 17:00, 480 = 08:00. -/

/-- C1 (counterexample): contiguity fails on the code.  For window
[09:00, 17:00) and busy [{10:00, 11:30}, {11:00, 12:00}] the second slot ends
at 11:30 while the third starts at 11:00, so the end of slot i does not equal
the start of slot i+1 and the two busy slots overlap. -/
theorem c1_counterexample :
    ((calculateFreeTimeSlots 540 1020 [⟨600, 690⟩, ⟨660, 720⟩])[1]?).map TimeSlot.stop ≠
      ((calculateFreeTimeSlots 540 1020 [⟨600, 690⟩, ⟨660, 720⟩])[2]?).map TimeSlot.start := by
  decide

/-- C1 (amended): for every window with start ≤ end and every list of
well-formed busy intervals, the emitted slots have nondecreasing start times,
every slot lies inside the window, and every point of [start, end) is covered
by some emitted slot; the slots may however overlap and need not be
contiguous, so the union — not the concatenation — reconstructs the window. -/
theorem c1_amended (s e : Int) (busy : List Event) (hse : s ≤ e)
    (hwf : ∀ b ∈ busy, b.start ≤ b.stop) :
    List.Pairwise (fun a b : TimeSlot => a.start ≤ b.start)
        (calculateFreeTimeSlots s e busy) ∧
    (∀ slot ∈ calculateFreeTimeSlots s e busy, s ≤ slot.start ∧ slot.stop ≤ e) ∧
    (∀ t : Int, s ≤ t → t < e →
      ∃ slot ∈ calculateFreeTimeSlots s e busy, slot.start ≤ t ∧ t < slot.stop) := by
  rcases eq_or_ne busy [] with rfl | h
  · rw [calculateFreeTimeSlots_nil]
    refine ⟨by simp, ?_, ?_⟩
    · intro slot hmem
      rcases List.mem_singleton.mp hmem with rfl
      exact ⟨le_refl s, le_refl e⟩
    · intro t h1 h2
      exact ⟨⟨s, e, true⟩, List.mem_singleton.mpr rfl, h1, h2⟩
  · rw [calculateFreeTimeSlots_eq_sweep s e busy h]
    refine ⟨?_, ?_, ?_⟩
    · exact sweep_pairwise_start s e hse (sortEvents busy) s (le_refl s)
        (sortEvents_sorted busy) (fun x hx => hwf x ((sortEvents_perm busy).subset hx))
    · exact sweep_in_window s e hse (sortEvents busy) s (le_refl s) hse
    · intro t h1 h2
      exact sweep_covers s e (sortEvents busy) s t h1 h2

/-- C1 (witness): the amended invariant evaluated at the counterexample
input. -/
theorem c1_amended_witness :
    List.Pairwise (fun a b : TimeSlot => a.start ≤ b.start)
      (calculateFreeTimeSlots 540 1020 [⟨600, 690⟩, ⟨660, 720⟩]) :=
  (c1_amended 540 1020 [⟨600, 690⟩, ⟨660, 720⟩] (by decide) (by decide)).1

/-- C2 (counterexample): overlapping busy intervals are not merged.  For
window [09:00, 17:00) and busy [{10:00, 11:30}, {11:00, 12:00}] the output is
not the merged sequence the claim requires. -/
theorem c2_counterexample :
    calculateFreeTimeSlots 540 1020 [⟨600, 690⟩, ⟨660, 720⟩] ≠
      [⟨540, 600, true⟩, ⟨600, 720, false⟩, ⟨720, 1020, true⟩] := by
  decide

/-- C2 (amended): overlapping or abutting busy intervals are never merged:
each window-intersecting busy interval yields its own busy slot (the busy
slot count equals the count of window-intersecting inputs), and for the
scenario window [09:00, 17:00), busy [{10:00, 11:30}, {11:00, 12:00}] the
output is [{09:00,10:00,free}, {10:00,11:30,busy}, {11:00,12:00,busy},
{12:00,17:00,free}]. -/
theorem c2_amended :
    calculateFreeTimeSlots 540 1020 [⟨600, 690⟩, ⟨660, 720⟩] =
      [⟨540, 600, true⟩, ⟨600, 690, false⟩, ⟨660, 720, false⟩, ⟨720, 1020, true⟩] ∧
    ∀ (s e : Int) (busy : List Event),
      (calculateFreeTimeSlots s e busy).countP (fun slot => slot.free == false) =
        busy.countP (fun ev => decide (¬(ev.stop < s ∨ e < ev.start))) :=
  ⟨by decide, fun s e busy => calc_busy_count s e busy⟩

/-- C3 (counterexample): two adjacent slots can carry the same free flag: the
second and third slots of the overlap scenario are both busy. -/
theorem c3_counterexample :
    ((calculateFreeTimeSlots 540 1020 [⟨600, 690⟩, ⟨660, 720⟩])[1]?).map TimeSlot.free =
        some false ∧
    ((calculateFreeTimeSlots 540 1020 [⟨600, 690⟩, ⟨660, 720⟩])[2]?).map TimeSlot.free =
        some false := by
  decide

/-- C3 (amended): no two adjacent slots are both free (every free slot
emitted in the loop is immediately followed by a busy slot and the trailing
free slot is last); adjacent busy-busy pairs do occur. -/
theorem c3_amended (s e : Int) (busy : List Event) :
    List.Chain' (fun a b : TimeSlot => a.free = false ∨ b.free = false)
      (calculateFreeTimeSlots s e busy) := by
  rcases eq_or_ne busy [] with rfl | h
  · rw [calculateFreeTimeSlots_nil]
    simp
  · rw [calculateFreeTimeSlots_eq_sweep s e busy h]
    exact sweep_chain_free s e (sortEvents busy) s

/-- C4 (counterexample): a malformed busy interval ({11:00, 10:00}, end
before start) does not make the call fail: a full slot sequence is returned
and it contains the inverted interval as a busy slot. -/
theorem c4_counterexample :
    CheckAvailability 540 1020 [⟨660, 600⟩] =
      Except.ok [⟨540, 660, true⟩, ⟨660, 600, false⟩, ⟨600, 1020, true⟩] ∧
    calculateFreeTimeSlots 540 1020 [⟨660, 600⟩] ≠ [] := by
  constructor
  · rfl
  · decide

/-- C4 (amended): no validation of busy entries exists anywhere in the
computation; a malformed interval (stop < start) lying inside the window is
swept like any other and contributes an inverted busy slot flanked by
overlapping free slots, and no error is raised. -/
theorem c4_amended (s e : Int) (b : Event) (h1 : s ≤ b.stop) (h2 : b.stop < b.start)
    (h3 : b.start ≤ e) :
    calculateFreeTimeSlots s e [b] =
      [⟨s, b.start, true⟩, ⟨b.start, b.stop, false⟩, ⟨b.stop, e, true⟩] := by
  have hA : clipStart s b = b.start := by unfold clipStart; split <;> omega
  have hB : clipStop e b = b.stop := by unfold clipStop; split <;> omega
  have hC : bump s b.stop = b.stop := by unfold bump; split <;> omega
  rw [calculateFreeTimeSlots_eq_sweep s e [b] (by simp)]
  have hsort : sortEvents [b] = [b] := rfl
  rw [hsort]
  simp only [sweep]
  rw [if_neg (by omega : ¬(b.stop < s ∨ e < b.start)), hA, hB, hC,
    if_pos (by omega : s < b.start), if_pos (by omega : b.stop < e)]
  rfl

/-- C4 (witness): the amended behavior at the malformed scenario input. -/
theorem c4_amended_witness :
    calculateFreeTimeSlots 540 1020 [⟨660, 600⟩] =
      [⟨540, 660, true⟩, ⟨660, 600, false⟩, ⟨600, 1020, true⟩] :=
  c4_amended 540 1020 ⟨660, 600⟩ (by decide) (by decide) (by decide)

/-- C5 (counterexample): an empty window with an empty busy list does not
yield the empty sequence: it yields one zero-length free slot. -/
theorem c5_counterexample :
    calculateFreeTimeSlots 540 540 [] ≠ ([] : List TimeSlot) := by
  decide

/-- C5 (amended): when window.start == window.end every emitted slot is the
zero-length interval at that instant (one free slot for an empty busy list,
one busy slot per intersecting event otherwise); the output need not be
empty. -/
theorem c5_amended (s : Int) (busy : List Event) :
    ∀ slot ∈ calculateFreeTimeSlots s s busy, slot.start = s ∧ slot.stop = s := by
  rcases eq_or_ne busy [] with rfl | h
  · rw [calculateFreeTimeSlots_nil]
    intro slot hmem
    rcases List.mem_singleton.mp hmem with rfl
    exact ⟨rfl, rfl⟩
  · rw [calculateFreeTimeSlots_eq_sweep s s busy h]
    exact sweep_deg s (sortEvents busy)

/-- C5 (witness): the amended statement at the counterexample input. -/
theorem c5_amended_witness :
    (⟨540, 540, true⟩ : TimeSlot).start = 540 ∧ (⟨540, 540, true⟩ : TimeSlot).stop = 540 :=
  c5_amended 540 [] ⟨540, 540, true⟩ (by decide)

/-- C6 (counterexample): a busy interval touching the window boundary
({08:00, 09:00} against window [09:00, 17:00)) is not discarded: it
contributes a zero-length busy slot at the boundary. -/
theorem c6_counterexample :
    calculateFreeTimeSlots 540 1020 [⟨480, 540⟩] ≠ [⟨540, 1020, true⟩] := by
  decide

/-- C6 (amended): only intervals strictly outside the window
(stop < window.start or window.end < start) are skipped and contribute
nothing; a well-formed interval that merely touches the left boundary
(stop == window.start) is kept and contributes a zero-length busy slot at the
boundary. -/
theorem c6_amended :
    (∀ (s e cur : Int) (ev : Event) (l : List Event), ev.stop < s ∨ e < ev.start →
        sweep s e cur (ev :: l) = sweep s e cur l) ∧
    (∀ (s e : Int) (b : Event), b.start ≤ b.stop → b.stop = s → s ≤ e →
        calculateFreeTimeSlots s e [b] =
          ⟨s, s, false⟩ :: if s < e then [⟨s, e, true⟩] else []) := by
  constructor
  · intro s e cur ev l h
    exact sweep_skip s e cur ev l h
  · intro s e b hwf hstop hse
    have hA : clipStart s b = s := by unfold clipStart; split <;> omega
    have hB : clipStop e b = s := by unfold clipStop; split <;> omega
    have hC : bump s s = s := by unfold bump; split <;> omega
    rw [calculateFreeTimeSlots_eq_sweep s e [b] (by simp)]
    have hsort : sortEvents [b] = [b] := rfl
    rw [hsort]
    simp only [sweep]
    rw [if_neg (by omega : ¬(b.stop < s ∨ e < b.start)), hA, hB, hC,
      if_neg (lt_irrefl s)]
    simp [sweep]

/-- C6 (witness): the amended statement at concrete inputs. -/
theorem c6_amended_witness :
    sweep 540 1020 540 [⟨0, 10⟩, ⟨600, 660⟩] = sweep 540 1020 540 [⟨600, 660⟩] ∧
    calculateFreeTimeSlots 540 1020 [⟨480, 540⟩] =
      ⟨540, 540, false⟩ :: if (540 : Int) < 1020 then [⟨540, 1020, true⟩] else [] :=
  ⟨c6_amended.1 540 1020 540 ⟨0, 10⟩ [⟨600, 660⟩] (by decide),
    c6_amended.2 540 1020 ⟨480, 540⟩ (by decide) (by decide) (by decide)⟩

/-- C7 (counterexample): order independence fails when two busy intervals
share a start time: swapping {10:00, 11:00} and {10:00, 12:00} changes the
output, because the sort compares start times only and the sweep emits the
tied events in their given order. -/
theorem c7_counterexample :
    calculateFreeTimeSlots 540 1020 [⟨600, 660⟩, ⟨600, 720⟩] ≠
      calculateFreeTimeSlots 540 1020 [⟨600, 720⟩, ⟨600, 660⟩] := by
  decide

/-- C7 (amended): shuffling the input busy list yields the same output
whenever no two busy intervals share a start time (the sorted order is then
unique); with duplicated start times the output is order dependent. -/
theorem c7_amended (s e : Int) (l1 l2 : List Event) (hp : l1.Perm l2)
    (hn : (l1.map Event.start).Nodup) :
    calculateFreeTimeSlots s e l1 = calculateFreeTimeSlots s e l2 := by
  rcases eq_or_ne l1 [] with rfl | h1
  · rw [hp.symm.eq_nil]
  · have h2 : l2 ≠ [] := fun hnil => h1 (by rw [hnil] at hp; exact hp.eq_nil)
    rw [calculateFreeTimeSlots_eq_sweep s e l1 h1,
      calculateFreeTimeSlots_eq_sweep s e l2 h2, sortEvents_eq_of_perm l1 l2 hp hn]

/-- C7 (witness): a shuffle with distinct start times leaves the output
unchanged. -/
theorem c7_amended_witness :
    calculateFreeTimeSlots 540 1020 [⟨600, 660⟩, ⟨660, 720⟩] =
      calculateFreeTimeSlots 540 1020 [⟨660, 720⟩, ⟨600, 660⟩] :=
  c7_amended 540 1020 [⟨600, 660⟩, ⟨660, 720⟩] [⟨660, 720⟩, ⟨600, 660⟩]
    (by decide) (by decide)

/-- C8 (counterexample): duplicate input is not idempotent: supplying
{10:00, 11:00} twice yields a different output than supplying it once. -/
theorem c8_counterexample :
    calculateFreeTimeSlots 540 1020 [⟨600, 660⟩, ⟨600, 660⟩] ≠
      calculateFreeTimeSlots 540 1020 [⟨600, 660⟩] := by
  decide

/-- C8 (amended): supplying a window-intersecting busy interval twice never
yields the same output as supplying it once — the duplicate contributes an
extra busy slot — and for window [09:00, 17:00) with {10:00, 11:00} supplied
twice the duplicated busy slot is visible in the output. -/
theorem c8_amended :
    (∀ (s e : Int) (b : Event) (l : List Event), ¬(b.stop < s ∨ e < b.start) →
        calculateFreeTimeSlots s e (b :: b :: l) ≠ calculateFreeTimeSlots s e (b :: l)) ∧
    calculateFreeTimeSlots 540 1020 [⟨600, 660⟩, ⟨600, 660⟩] =
      [⟨540, 600, true⟩, ⟨600, 660, false⟩, ⟨600, 660, false⟩, ⟨660, 1020, true⟩] := by
  constructor
  · intro s e b l hb heq
    have h1 := calc_busy_count s e (b :: b :: l)
    have h2 := calc_busy_count s e (b :: l)
    rw [heq, h2] at h1
    simp [List.countP_cons, hb] at h1
    omega
  · decide

/-- C8 (witness): the general inequality at a concrete intersecting
duplicate. -/
theorem c8_amended_witness :
    calculateFreeTimeSlots 0 100 [⟨10, 20⟩, ⟨10, 20⟩] ≠
      calculateFreeTimeSlots 0 100 [⟨10, 20⟩] :=
  c8_amended.1 0 100 ⟨10, 20⟩ [] (by decide)

/-- C9 (confirmed): `CheckAvailability` rejects a window whose start is
strictly after its end with INVALID_TIME_RANGE before any slot computation,
accepts every other window, and `calculateFreeTimeSlots` itself performs no
window-ordering validation: even for an inverted window it happily returns
an (inverted) free slot. -/
theorem c9_confirmed :
    (∀ (s e : Int) (events : List Event), e < s →
        CheckAvailability s e events = Except.error CalendarError.invalidTimeRange) ∧
    (∀ (s e : Int) (events : List Event), s ≤ e →
        CheckAvailability s e events = Except.ok (calculateFreeTimeSlots s e events)) ∧
    (∀ s e : Int, calculateFreeTimeSlots s e [] = [⟨s, e, true⟩]) := by
  refine ⟨?_, ?_, ?_⟩
  · intro s e ev h
    rw [CheckAvailability, if_pos h]
  · intro s e ev h
    rw [CheckAvailability, if_neg (by omega)]
  · intro s e
    exact calculateFreeTimeSlots_nil s e

/-- C9 (witness): the validation at concrete inverted and ordered windows. -/
theorem c9_confirmed_witness :
    CheckAvailability 1020 540 [] = Except.error CalendarError.invalidTimeRange ∧
    CheckAvailability 540 1020 [] = Except.ok (calculateFreeTimeSlots 540 1020 []) ∧
    calculateFreeTimeSlots 1020 540 [] = [⟨1020, 540, true⟩] :=
  ⟨c9_confirmed.1 1020 540 [] (by decide), c9_confirmed.2.1 540 1020 [] (by decide),
    c9_confirmed.2.2 1020 540⟩

/-- C10 (counterexample): for the degenerate window [10:00, 10:00) with no
busy input the computation emits a zero-length slot labeled free. -/
theorem c10_counterexample :
    calculateFreeTimeSlots 600 600 [] = [⟨600, 600, true⟩] ∧
    ((⟨600, 600, true⟩ : TimeSlot).free = true ∧
      ¬ (⟨600, 600, true⟩ : TimeSlot).start < (⟨600, 600, true⟩ : TimeSlot).stop) := by
  decide

/-- C10 (amended): for every window with start strictly before end and every
busy list (malformed or out-of-range entries included), every slot labeled
free has start strictly before stop, and any zero-length slot is labeled
busy. -/
theorem c10_amended (s e : Int) (busy : List Event) (hse : s < e) :
    ∀ slot ∈ calculateFreeTimeSlots s e busy,
      (slot.free = true → slot.start < slot.stop) ∧
      (slot.start = slot.stop → slot.free = false) := by
  have key : ∀ slot ∈ calculateFreeTimeSlots s e busy,
      slot.free = true → slot.start < slot.stop := by
    rcases eq_or_ne busy [] with rfl | h
    · rw [calculateFreeTimeSlots_nil]
      intro slot hmem _
      rcases List.mem_singleton.mp hmem with rfl
      exact hse
    · rw [calculateFreeTimeSlots_eq_sweep s e busy h]
      exact sweep_free_strict s e (sortEvents busy) s
  intro slot hmem
  refine ⟨key slot hmem, ?_⟩
  intro heq
  rcases Bool.eq_false_or_eq_true slot.free with hf | hf
  · exact absurd (key slot hmem hf) (by omega)
  · exact hf

/-- C10 (witness): the amended statement at a concrete free slot. -/
theorem c10_amended_witness :
    ((⟨540, 600, true⟩ : TimeSlot).free = true →
      (⟨540, 600, true⟩ : TimeSlot).start < (⟨540, 600, true⟩ : TimeSlot).stop) ∧
    ((⟨540, 600, true⟩ : TimeSlot).start = (⟨540, 600, true⟩ : TimeSlot).stop →
      (⟨540, 600, true⟩ : TimeSlot).free = false) :=
  c10_amended 540 1020 [⟨600, 660⟩] (by decide) ⟨540, 600, true⟩ (by decide)
